import Mathlib

/-!
Verification of the image resolution, decode and caching engine of the
`misskey-reactions` program (file `image.go`), shallow-embedded in Lean.

Go strings are modelled as lists of code points (`GoStr`), with explicit
UTF-8 encoding where the code indexes raw bytes.  Raster images are
modelled as bounded canvases of 8-bit RGBA pixels; `draw.Draw` is
modelled pointwise with the clipping and source-point semantics of Go's
`image/draw`.  External decoders (GIF, APNG, WebP, the generic static
decoder) and the HTTP client are modelled as an environment of
result-valued functions, while every algorithm of `image.go` itself
(compositors, tRNS stripping, URL resolution, the cache) is translated
directly from the source.
-/

namespace EbitenSandbox

/-! ## Go strings and UTF-8 -/

/-- A Go string viewed as its sequence of code points (runes). -/
abbrev GoStr := List Char

/-- The UTF-8 bytes of a single code point. -/
def charUtf8Bytes (c : Char) : List Nat :=
  if c.toNat < 0x80 then [c.toNat]
  else if c.toNat < 0x800 then [0xc0 + c.toNat / 0x40, 0x80 + c.toNat % 0x40]
  else if c.toNat < 0x10000 then
    [0xe0 + c.toNat / 0x1000, 0x80 + c.toNat / 0x40 % 0x40, 0x80 + c.toNat % 0x40]
  else
    [0xf0 + c.toNat / 0x40000, 0x80 + c.toNat / 0x1000 % 0x40,
      0x80 + c.toNat / 0x40 % 0x40, 0x80 + c.toNat % 0x40]

/-- The UTF-8 encoding of a Go string. -/
def utf8Bytes : GoStr → List Nat
  | [] => []
  | c :: rest => charUtf8Bytes c ++ utf8Bytes rest

/-- Go's `len` on a string: its byte length. -/
def goLen (s : GoStr) : Nat := (utf8Bytes s).length

/-- Go's `s[i]`: the `i`-th byte of the string. -/
def goByte (s : GoStr) (i : Nat) : Nat := (utf8Bytes s).getD i 0

/-- Go's `strings.Contains`. -/
def goContains : GoStr → GoStr → Bool
  | s, sub =>
    match s with
    | [] => sub.isEmpty
    | _ :: t => sub.isPrefixOf s || goContains t sub

/-- Go's `strings.Trim(s, ":")`: remove all leading and trailing colons. -/
def trimColons (s : GoStr) : GoStr :=
  ((s.dropWhile (fun c => c = ':')).reverse.dropWhile (fun c => c = ':')).reverse

/-! ## Pixels, rectangles and canvases -/

/-- An 8-bit premultiplied RGBA pixel, as stored in Go's `image.RGBA`. -/
structure RGBA where
  r : Nat
  g : Nat
  b : Nat
  a : Nat
deriving DecidableEq, Repr

/-- The fully transparent pixel. -/
def RGBA.clear : RGBA := ⟨0, 0, 0, 0⟩

/-- `image.Rectangle` with min corner `(x0, y0)` and max corner `(x1, y1)`. -/
structure Rect where
  x0 : Int
  y0 : Int
  x1 : Int
  y1 : Int
deriving DecidableEq, Repr

/-- Membership of a point in a rectangle (min inclusive, max exclusive). -/
def Rect.mem (rc : Rect) (x y : Int) : Bool :=
  decide (rc.x0 ≤ x) && decide (x < rc.x1) && decide (rc.y0 ≤ y) && decide (y < rc.y1)

/-- `image.Rect`. -/
def imageRect (x0 y0 x1 y1 : Int) : Rect := ⟨x0, y0, x1, y1⟩

/-- A bounded raster image: a bounds rectangle plus a total pixel function
(pixels outside the bounds are never drawn to and stay at their initial
value). -/
structure Canvas where
  bounds : Rect
  pix : Int → Int → RGBA

/-- `image.NewRGBA(rc)`: an all-transparent canvas with the given bounds. -/
def newRGBA (rc : Rect) : Canvas := ⟨rc, fun _ _ => RGBA.clear⟩

/-- `image.Transparent`: the infinite uniform transparent source image. -/
def imageTransparent : Canvas :=
  ⟨⟨-(10 ^ 9), -(10 ^ 9), 10 ^ 9, 10 ^ 9⟩, fun _ _ => RGBA.clear⟩

/-- The Porter-Duff `over` operator as computed by `image/draw` on 8-bit
premultiplied RGBA pixels (16-bit intermediate arithmetic). -/
def blendOver (s d : RGBA) : RGBA :=
  let m : Nat := 0xffff
  let a := (m - s.a * 0x101) * 0x101
  ⟨(d.r * a / m + s.r * 0x101) / 0x100,
    (d.g * a / m + s.g * 0x101) / 0x100,
    (d.b * a / m + s.b * 0x101) / 0x100,
    (d.a * a / m + s.a * 0x101) / 0x100⟩

/-- `draw.Op`: `draw.Src` or `draw.Over`. -/
inductive DrawOp where
  | src
  | over
deriving DecidableEq, Repr

/-- Apply a draw operator to a source and a destination pixel. -/
def applyOp : DrawOp → RGBA → RGBA → RGBA
  | .src, s, _ => s
  | .over, s, d => blendOver s d

/-- `draw.Draw(dst, rc, src, (spx, spy), op)`: for every destination point
inside `rc`, inside the destination bounds, and whose corresponding source
point lies inside the source bounds, combine source over destination with
`op`; all other pixels are untouched. -/
def drawImage (dst : Canvas) (rc : Rect) (src : Canvas) (spx spy : Int)
    (op : DrawOp) : Canvas :=
  { bounds := dst.bounds
    pix := fun x y =>
      let sx := spx + (x - rc.x0)
      let sy := spy + (y - rc.y0)
      if rc.mem x y && dst.bounds.mem x y && src.bounds.mem sx sy then
        applyOp op (src.pix sx sy) (dst.pix x y)
      else dst.pix x y }

/-- `ebiten.NewImageFromImage`: uploads a raster image unchanged. -/
def ebitenNewImageFromImage (c : Canvas) : Canvas := c

/-! ## Decoded assets -/

/-- `AnimatedImage`: pre-rendered frames plus per-frame delays in
milliseconds. -/
structure AnimatedImage where
  Frames : List Canvas
  FrameDelays : List Int

/-- `DecodedImage`: result of decoding, static or animated. -/
structure DecodedImage where
  Static : Option Canvas
  Animated : Option AnimatedImage

/-! ## The asset cache (`ImageManager`) -/

/-- A cached item: the Go cache stores either a static `*ebiten.Image` or a
`*AnimatedImage` under the `any` type. -/
inductive CachedItem where
  | staticImg (img : Canvas)
  | anim (a : AnimatedImage)

/-- The cache map of `ImageManager`. -/
abbrev Cache := GoStr → Option CachedItem

namespace ImageManager

/-- `ImageManager.Get`: map read returning the item and presence flag. -/
def Get (cache : Cache) (key : GoStr) : Option CachedItem × Bool :=
  (cache key, (cache key).isSome)

/-- `ImageManager.Set`: map insert. -/
def Set (cache : Cache) (key : GoStr) (value : CachedItem) : Cache :=
  fun k => if k = key then some value else cache k

end ImageManager

/-! ## APNG frames and compositor -/

/-- `apng.BLEND_OP_SOURCE` / `apng.BLEND_OP_OVER`. -/
inductive ApngBlendOp where
  | source
  | over
deriving DecidableEq, Repr

/-- `apng.DISPOSE_OP_NONE` / `..._BACKGROUND` / `..._PREVIOUS`. -/
inductive ApngDisposeOp where
  | none
  | background
  | previous
deriving DecidableEq, Repr

/-- An `apng.Frame`: pixel data with its placement, blend/dispose ops,
default-image flag, and delay as a rational number of seconds
(`GetDelay() = DelayNumerator / DelayDenominator`, denominator `0`
standing for `100`). -/
structure ApngFrame where
  Image : Canvas
  XOffset : Int
  YOffset : Int
  BlendOp : ApngBlendOp
  DisposeOp : ApngDisposeOp
  IsDefault : Bool
  DelayNumerator : Nat
  DelayDenominator : Nat

/-- `apng.APNG`. -/
structure APNG where
  Frames : List ApngFrame

/-- `Frame.GetDelay()` as an exact rational number of seconds. -/
def ApngFrame.GetDelay (f : ApngFrame) : ℚ :=
  if f.DelayDenominator = 0 then (f.DelayNumerator : ℚ) / 100
  else (f.DelayNumerator : ℚ) / (f.DelayDenominator : ℚ)

/-- Go's `math.Round`: round half away from zero. -/
def mathRound (q : ℚ) : Int :=
  if 0 ≤ q then ⌊q + 1 / 2⌋ else -⌊1 / 2 - q⌋

/-- The frame delay in milliseconds: `int(math.Round(GetDelay() * 1000))`. -/
def apngDelayMs (f : ApngFrame) : Int := mathRound (f.GetDelay * 1000)

/-- The destination rectangle of an APNG frame: its X/Y offset extended by
the frame image's width and height. -/
def apngDstRect (frame : ApngFrame) : Rect :=
  let frameWidth := frame.Image.bounds.x1 - frame.Image.bounds.x0
  let frameHeight := frame.Image.bounds.y1 - frame.Image.bounds.y0
  imageRect frame.XOffset frame.YOffset (frame.XOffset + frameWidth)
    (frame.YOffset + frameHeight)

/-- Compositing one APNG frame onto the canvas: draw the frame image at
`dstRect` with `draw.Src` when its blend op is `BLEND_OP_SOURCE` and
`draw.Over` otherwise. -/
def apngComposite (canvas : Canvas) (frame : ApngFrame) : Canvas :=
  drawImage canvas (apngDstRect frame) frame.Image frame.Image.bounds.x0
    frame.Image.bounds.y0 (if frame.BlendOp = .source then .src else .over)

/-- The loop state of `preRenderApngAnimation`: the persistent canvas, the
pre-frame snapshot buffer, and the output frames and delays built so far. -/
structure ApngLoopState where
  canvas : Canvas
  prevCanvas : Canvas
  frames : List Canvas
  frameDelays : List Int

/-- One iteration of the loop of `preRenderApngAnimation`: skip default
frames; copy the canvas into the pre-frame buffer; composite; snapshot the
canvas into a fresh image; record the delay; finally apply the disposal
op. -/
def apngStep (st : ApngLoopState) (frame : ApngFrame) : ApngLoopState :=
  if frame.IsDefault then st
  else
    let prevCanvas := drawImage st.prevCanvas st.prevCanvas.bounds st.canvas 0 0 .src
    let canvas := apngComposite st.canvas frame
    let frameCopy := drawImage (newRGBA canvas.bounds) canvas.bounds canvas 0 0 .src
    let frames := st.frames ++ [ebitenNewImageFromImage frameCopy]
    let frameDelays := st.frameDelays ++ [apngDelayMs frame]
    let canvas2 :=
      match frame.DisposeOp with
      | .background => drawImage canvas (apngDstRect frame) imageTransparent 0 0 .src
      | .previous => drawImage canvas canvas.bounds prevCanvas 0 0 .src
      | .none => canvas
    ⟨canvas2, prevCanvas, frames, frameDelays⟩

/-- The initial state of the APNG compositor loop. -/
def apngInit (canvasWidth canvasHeight : Int) : ApngLoopState :=
  ⟨newRGBA (imageRect 0 0 canvasWidth canvasHeight),
    newRGBA (imageRect 0 0 canvasWidth canvasHeight), [], []⟩

/-- `preRenderApngAnimation`: composite an APNG's frames onto a canvas. -/
def preRenderApngAnimation (animation : APNG) (canvasWidth canvasHeight : Int) :
    AnimatedImage :=
  let st := animation.Frames.foldl apngStep (apngInit canvasWidth canvasHeight)
  ⟨st.frames, st.frameDelays⟩

/-! ## WebP compositor -/

/-- `webp.WEBP` as produced by `webp.DecodeAll`.  Modelled from the spec:
the decoder (an external library, not part of this repository) yields
already fully-composited frames with parallel per-frame delays whose
native unit is milliseconds. -/
structure WEBP where
  Image : List Canvas
  Delay : List Int

/-- `preRenderWebpAnimation`: repackage a decoded WebP animation. -/
def preRenderWebpAnimation (animation : WEBP) : AnimatedImage :=
  ⟨animation.Image.map ebitenNewImageFromImage, animation.Delay⟩

/-! ## GIF compositor -/

/-- `gif.GIF` as produced by `gif.DecodeAll`: sub-images with their bounds,
parallel delays in 100ths of a second and disposal bytes, and the logical
screen size from `g.Config`. -/
structure GoGIF where
  Image : List Canvas
  Delay : List Int
  Disposal : List Nat
  ConfigWidth : Int
  ConfigHeight : Int

/-- `gif.DisposalBackground`. -/
def gifDisposalBackground : Nat := 2

/-- Drawing one GIF sub-image onto the canvas: `draw.Over` at the
sub-image's own bounds. -/
def gifComposite (canvas srcImg : Canvas) : Canvas :=
  drawImage canvas srcImg.bounds srcImg srcImg.bounds.x0 srcImg.bounds.y0 .over

/-- The loop of `preRenderGifAnimation`: walk the sub-images (with their
parallel disposal bytes), drawing each onto the persistent canvas with
`draw.Over` at its own bounds, snapshotting the canvas after each draw, and
clearing the sub-image's rectangle when its disposal is
restore-to-background. -/
def gifLoop : List Canvas → List Nat → Canvas → List Canvas
  | [], _, _ => []
  | srcImg :: rest, disposal, canvas =>
    let canvas1 := gifComposite canvas srcImg
    let frameCopy := drawImage (newRGBA canvas1.bounds) canvas1.bounds canvas1 0 0 .src
    let canvas2 :=
      if disposal.headD 0 = gifDisposalBackground then
        drawImage canvas1 srcImg.bounds imageTransparent 0 0 .src
      else canvas1
    ebitenNewImageFromImage frameCopy :: gifLoop rest disposal.tail canvas2

/-- `preRenderGifAnimation`: composite a GIF's frames onto a canvas. -/
def preRenderGifAnimation (g : GoGIF) : AnimatedImage :=
  let canvas := newRGBA (imageRect 0 0 g.ConfigWidth g.ConfigHeight)
  ⟨gifLoop g.Image g.Disposal canvas, g.Delay.map (fun d => d * 10)⟩

/-! ## tRNS stripping -/

/-- The 8-byte PNG signature `\x89PNG\r\n\x1a\n`. -/
def pngSignature : List Nat := [0x89, 0x50, 0x4e, 0x47, 0x0d, 0x0a, 0x1a, 0x0a]

/-- The 4 bytes of the chunk type `IHDR`. -/
def ihdrType : List Nat := [0x49, 0x48, 0x44, 0x52]

/-- The 4 bytes of the chunk type `tRNS`. -/
def trnsType : List Nat := [0x74, 0x52, 0x4e, 0x53]

/-- The 4 bytes of the chunk type `IEND`. -/
def iendType : List Nat := [0x49, 0x45, 0x4e, 0x44]

/-- `binary.BigEndian.Uint32` of a 4-byte slice. -/
def be32 (l : List Nat) : Nat := l.foldl (fun acc b => acc * 256 + b) 0

/-- The chunk loop of `stripTRNSFromRGBA`, acting on the data after the
signature.  `isRGBA` records whether an IHDR chunk with color type 6 has
been seen; tRNS chunks are dropped once it is set; at IEND the remaining
bytes are copied verbatim and the loop stops. -/
def stripLoop (rest : List Nat) (isRGBA : Bool) : Except GoStr (List Nat) :=
  if rest.isEmpty then .ok []
  else if _h8 : rest.length < 8 then .error "invalid chunk header".toList
  else
    let chunkLength := be32 (rest.take 4)
    let chunkType := (rest.drop 4).take 4
    let chunkSize := 8 + chunkLength + 4
    if _hsz : rest.length < chunkSize then .error "chunk exceeds data length".toList
    else
      let chunk := rest.take chunkSize
      let isRGBA2 :=
        if chunkType = ihdrType ∧ chunkLength = 13 ∧ rest.getD 17 0 = 6 then true
        else isRGBA
      let written :=
        if chunkType = ihdrType then chunk
        else if chunkType = trnsType ∧ isRGBA then ([] : List Nat)
        else chunk
      if chunkType = iendType then .ok (written ++ rest.drop chunkSize)
      else
        match stripLoop (rest.drop chunkSize) isRGBA2 with
        | .error e => .error e
        | .ok out => .ok (written ++ out)
termination_by rest.length
decreasing_by
  simp only [List.length_drop]
  omega

/-- `stripTRNSFromRGBA`: pass non-PNG data through unchanged; otherwise
re-emit the signature and run the chunk loop. -/
def stripTRNSFromRGBA (data : List Nat) : Except GoStr (List Nat) :=
  if data.length < 8 ∨ data.take 8 ≠ pngSignature then .ok data
  else
    match stripLoop (data.drop 8) false with
    | .error e => .error e
    | .ok out => .ok (pngSignature ++ out)

/-! ## Fetch-and-decode pipeline -/

/-- An HTTP response: status code and body bytes. -/
structure HttpResponse where
  StatusCode : Nat
  Body : List Nat

/-- The external collaborators of `fetchAndDecodeImage`: the HTTP client,
content-type sniffing, and the third-party decoders, each modelled as a
function from the input bytes to its (possibly failing) result. -/
structure DecodeEnv where
  httpGet : GoStr → Except GoStr HttpResponse
  detectContentType : List Nat → GoStr
  gifDecodeAll : List Nat → Except GoStr GoGIF
  imageDecode : List Nat → Except GoStr Canvas
  apngDecodeConfig : List Nat → Except GoStr (Int × Int)
  apngDecodeAll : List Nat → Except GoStr APNG
  webpDecodeAll : List Nat → Except GoStr WEBP
  webpDecode : List Nat → Except GoStr Canvas

/-- The `processedData` of the PNG path of `fetchAndDecodeImage`: the
input bytes with invalid tRNS chunks stripped, or (with a logged warning)
the raw input bytes when the stripping step itself fails. -/
def processedPngData (data : List Nat) : List Nat :=
  match stripTRNSFromRGBA data with
  | .error _ => data
  | .ok cleaned => cleaned

/-- `fetchAndDecodeImage`: fetch the URL, require status 200, sniff the
content type, and dispatch to the GIF / PNG-family / WebP / generic static
decode paths, collapsing animations with at most one real frame to a
static image. -/
def fetchAndDecodeImage (env : DecodeEnv) (url : GoStr) :
    Except GoStr DecodedImage :=
  match env.httpGet url with
  | .error e => .error e
  | .ok resp =>
    if resp.StatusCode ≠ 200 then .error "bad status".toList
    else if goContains (env.detectContentType resp.Body) "gif".toList then
      match env.gifDecodeAll resp.Body with
      | .error e => .error e
      | .ok g =>
        if g.Image.length ≤ 1 then
          match env.imageDecode resp.Body with
          | .error e => .error e
          | .ok img => .ok ⟨some (ebitenNewImageFromImage img), none⟩
        else .ok ⟨none, some (preRenderGifAnimation g)⟩
    else if goContains (env.detectContentType resp.Body) "png".toList then
      match env.apngDecodeConfig (processedPngData resp.Body) with
      | .error e => .error e
      | .ok config =>
        match env.apngDecodeAll (processedPngData resp.Body) with
        | .error e =>
          match env.imageDecode (processedPngData resp.Body) with
          | .error _ => .error e
          | .ok img => .ok ⟨some (ebitenNewImageFromImage img), none⟩
        | .ok animation =>
          if animation.Frames.countP (fun f => !f.IsDefault) ≤ 1 then
            match env.imageDecode (processedPngData resp.Body) with
            | .error e => .error e
            | .ok img => .ok ⟨some (ebitenNewImageFromImage img), none⟩
          else
            .ok ⟨none, some (preRenderApngAnimation animation config.1 config.2)⟩
    else if goContains (env.detectContentType resp.Body) "webp".toList then
      match env.webpDecodeAll resp.Body with
      | .error e =>
        match env.webpDecode resp.Body with
        | .error _ => .error e
        | .ok img => .ok ⟨some (ebitenNewImageFromImage img), none⟩
      | .ok animation =>
        if animation.Image.length ≤ 1 then
          match env.webpDecode resp.Body with
          | .error e => .error e
          | .ok img => .ok ⟨some (ebitenNewImageFromImage img), none⟩
        else .ok ⟨none, some (preRenderWebpAnimation animation)⟩
    else
      match env.imageDecode resp.Body with
      | .error e => .error e
      | .ok img => .ok ⟨some (ebitenNewImageFromImage img), none⟩

/-! ## URL resolution and `LoadImageForObject` -/

/-- A lowercase hexadecimal digit character. -/
def hexDigitChar (d : Nat) : Char :=
  Char.ofNat (if d < 10 then 48 + d else 97 + (d - 10))

/-- Lowercase hexadecimal digits of a positive number, most significant
first. -/
def hexDigitsAux (n : Nat) : GoStr :=
  if _h : n = 0 then []
  else hexDigitsAux (n / 16) ++ [hexDigitChar (n % 16)]
termination_by n
decreasing_by
  exact Nat.div_lt_self (Nat.pos_of_ne_zero _h) (by omega)

/-- Go's `fmt.Sprintf("%x", r)`: lowercase hexadecimal, no padding. -/
def formatHex (n : Nat) : GoStr :=
  if n = 0 then ['0'] else hexDigitsAux n

/-- `emojiToTwemojiURL`: hex-encode each code point except `U+FE0F`, join
with hyphens, and substitute into the CDN URL template. -/
def emojiToTwemojiURL (emoji : GoStr) : GoStr :=
  let codes := (emoji.filter (fun r => decide (r.toNat ≠ 0xfe0f))).map
    (fun r => formatHex r.toNat)
  "https://cdn.jsdelivr.net/gh/twitter/twemoji@latest/assets/72x72/".toList ++
    List.intercalate "-".toList codes ++ ".png".toList

/-- The condition `len(Name) > 2 && Name[0] == ':' && Name[len(Name)-1] == ':'`
(byte-level, as in the source). -/
def customNameCond (name : GoStr) : Bool :=
  decide (2 < goLen name) && decide (goByte name 0 = 0x3a) &&
    decide (goByte name (goLen name - 1) = 0x3a)

/-- `ReactionInfo`. -/
structure ReactionInfo where
  Name : GoStr
  URL : GoStr

/-- The fields of a `ReactionObject` that `LoadImageForObject` writes. -/
structure ReactionObject where
  image : Option Canvas
  animatedImage : Option AnimatedImage
  fallbackText : GoStr

/-- The environment of `LoadImageForObject`: the decode pipeline's
collaborators plus the Misskey client's `QueryEmojiAPI`. -/
structure LoadEnv where
  decodeEnv : DecodeEnv
  queryEmojiAPI : GoStr → Except GoStr GoStr

/-- The outcome of the URL-determination block of `LoadImageForObject`:
either a URL to fetch, or an immediate fallback because the custom-emoji
API query failed (carrying the delimiter-stripped name). -/
inductive UrlResolution where
  | fetchUrl (url : GoStr)
  | resolverFailed (emojiName : GoStr)
deriving DecidableEq

/-- The URL-determination block of `LoadImageForObject` (lines 53–68):
explicit URL first; else the custom-emoji API for delimited names; else
the Twemoji CDN URL. -/
def determineUrl (env : LoadEnv) (reaction : ReactionInfo) : UrlResolution :=
  if reaction.URL ≠ [] then .fetchUrl reaction.URL
  else if customNameCond reaction.Name then
    let emojiName := trimColons reaction.Name
    match env.queryEmojiAPI emojiName with
    | .error _ => .resolverFailed emojiName
    | .ok u => .fetchUrl u
  else .fetchUrl (emojiToTwemojiURL reaction.Name)

/-- The cache-hit assignment of `LoadImageForObject`: a static item goes to
`obj.image`, an animated one to `obj.animatedImage`. -/
def assignCached (obj : ReactionObject) (item : CachedItem) : ReactionObject :=
  match item with
  | .staticImg img => { obj with image := some img }
  | .anim a => { obj with animatedImage := some a }

/-- `LoadImageForObject`: check the cache; on a miss determine the URL,
fetch and decode, and either populate the object and the cache, or set the
fallback text. -/
def LoadImageForObject (env : LoadEnv) (cache : Cache) (obj : ReactionObject)
    (reaction : ReactionInfo) : Cache × ReactionObject :=
  let lookup := ImageManager.Get cache reaction.Name
  if lookup.2 then
    (cache,
      match lookup.1 with
      | some item => assignCached obj item
      | none => obj)
  else
    match determineUrl env reaction with
    | .resolverFailed emojiName => (cache, { obj with fallbackText := emojiName })
    | .fetchUrl urlToFetch =>
      match fetchAndDecodeImage env.decodeEnv urlToFetch with
      | .error _ => (cache, { obj with fallbackText := trimColons reaction.Name })
      | .ok decoded =>
        match decoded.Animated with
        | some anim =>
          (ImageManager.Set cache reaction.Name (.anim anim),
            { obj with animatedImage := some anim })
        | none =>
          match decoded.Static with
          | some img =>
            (ImageManager.Set cache reaction.Name (.staticImg img),
              { obj with image := some img })
          | none => (cache, obj)

/-- A 1×1 transparent canvas used to build concrete cache values. -/
def testCanvas : Canvas := newRGBA (imageRect 0 0 1 1)

/-- C9: `Get` after `Set` returns the stored value with `found = true`;
a second `Set` on the same key wins (so repeating a `Set` is idempotent);
`Get` on an absent key reports `found = false`; and `Set` never removes an
existing entry (and `Get` does not modify the cache at all). -/
theorem claim_C9_cache_laws (m : Cache) (k k' : GoStr) (v1 v2 : CachedItem)
    (w : CachedItem) :
    ImageManager.Get (ImageManager.Set m k v1) k = (some v1, true) ∧
    ImageManager.Get (ImageManager.Set (ImageManager.Set m k v1) k v2) k
      = (some v2, true) ∧
    (m k' = none → ImageManager.Get m k' = (none, false)) ∧
    (m k' = some w → ∃ w', ImageManager.Set m k v1 k' = some w') := by
  refine ⟨?_, ?_, ?_, ?_⟩
  · simp [ImageManager.Get, ImageManager.Set]
  · simp [ImageManager.Get, ImageManager.Set]
  · intro h; simp [ImageManager.Get, h]
  · intro h
    by_cases hk : k' = k
    · exact ⟨v1, by simp [ImageManager.Set, hk]⟩
    · exact ⟨w, by simp [ImageManager.Set, hk, h]⟩

/-- Witness for C9 at concrete inputs. -/
theorem claim_C9_cache_laws_witness :
    ImageManager.Get
        (ImageManager.Set (fun _ => none) [':'] (.staticImg testCanvas)) [':']
      = (some (.staticImg testCanvas), true) ∧
    (∃ w', ImageManager.Set (fun _ => some (.anim ⟨[], []⟩)) [':']
        (.staticImg testCanvas) ['a'] = some w') := by
  constructor
  · exact (claim_C9_cache_laws (fun _ => none) [':'] ['a']
      (.staticImg testCanvas) (.staticImg testCanvas) (.staticImg testCanvas)).1
  · exact (claim_C9_cache_laws (fun _ => some (.anim ⟨[], []⟩)) [':'] ['a']
      (.staticImg testCanvas) (.staticImg testCanvas) (.anim ⟨[], []⟩)).2.2.2 rfl

/-! ## Claims C10, C6, C5 -/

/-- C10: any byte sequence shorter than 8 bytes, or not starting with the
PNG signature, passes through `stripTRNSFromRGBA` unchanged and without
error. -/
theorem claim_C10_non_png_passthrough (data : List Nat)
    (h : data.length < 8 ∨ data.take 8 ≠ pngSignature) :
    stripTRNSFromRGBA data = .ok data := by
  unfold stripTRNSFromRGBA
  rw [if_pos h]

/-- Witness for C10 at a concrete non-PNG input. -/
theorem claim_C10_non_png_passthrough_witness :
    stripTRNSFromRGBA [1, 2, 3] = .ok [1, 2, 3] :=
  claim_C10_non_png_passthrough [1, 2, 3] (by decide)

/-- C6: on a cache hit, `LoadImageForObject` assigns the cached asset to the
object and leaves the cache untouched; the result is the same for every
environment (so neither the fetch nor the custom-emoji resolver can have
been invoked). -/
theorem claim_C6_cache_hit_no_network (env env2 : LoadEnv) (cache : Cache)
    (obj : ReactionObject) (reaction : ReactionInfo) (item : CachedItem)
    (h : cache reaction.Name = some item) :
    LoadImageForObject env cache obj reaction = (cache, assignCached obj item) ∧
    LoadImageForObject env cache obj reaction
      = LoadImageForObject env2 cache obj reaction := by
  constructor
  · simp [LoadImageForObject, ImageManager.Get, h]
  · simp [LoadImageForObject, ImageManager.Get, h]

/-- A decode environment all of whose collaborators fail. -/
def errDecodeEnv : DecodeEnv :=
  ⟨fun _ => .error ['x'], fun _ => [], fun _ => .error [], fun _ => .error [],
    fun _ => .error [], fun _ => .error [], fun _ => .error [],
    fun _ => .error []⟩

/-- A load environment whose resolver and fetch both fail. -/
def errLoadEnv : LoadEnv := ⟨errDecodeEnv, fun _ => .error ['q']⟩

/-- A load environment whose resolver succeeds but whose fetch fails. -/
def okResolverLoadEnv : LoadEnv := ⟨errDecodeEnv, fun _ => .ok ['u']⟩

/-- Witness for C6 at concrete inputs. -/
theorem claim_C6_cache_hit_no_network_witness :
    LoadImageForObject errLoadEnv
        (fun _ => some (.staticImg testCanvas)) ⟨none, none, []⟩ ⟨['a'], []⟩
      = (fun _ => some (.staticImg testCanvas),
          assignCached ⟨none, none, []⟩ (.staticImg testCanvas)) :=
  (claim_C6_cache_hit_no_network errLoadEnv okResolverLoadEnv
    (fun _ => some (.staticImg testCanvas)) ⟨none, none, []⟩ ⟨['a'], []⟩
    (.staticImg testCanvas) rfl).1

/-- C5: every failure in the per-reaction pipeline ends as a text fallback
with the cache untouched: a custom-emoji resolver failure immediately sets
the delimiter-stripped name as fallback text (and the outcome does not
depend on the fetch/decode collaborators at all, so no fetch is attempted);
a fetch-or-decode failure sets the delimiter-stripped name as fallback
text; and a non-200 HTTP status is such a fetch failure. -/
theorem claim_C5_failure_fallback (env env2 : LoadEnv) (cache : Cache)
    (obj : ReactionObject) (reaction : ReactionInfo) (u e : GoStr)
    (hmiss : cache reaction.Name = none) :
    (reaction.URL = [] → customNameCond reaction.Name = true →
      env.queryEmojiAPI (trimColons reaction.Name) = .error e →
      (LoadImageForObject env cache obj reaction
          = (cache, { obj with fallbackText := trimColons reaction.Name }) ∧
        (env2.queryEmojiAPI = env.queryEmojiAPI →
          LoadImageForObject env2 cache obj reaction
            = LoadImageForObject env cache obj reaction))) ∧
    (determineUrl env reaction = .fetchUrl u →
      fetchAndDecodeImage env.decodeEnv u = .error e →
      LoadImageForObject env cache obj reaction
        = (cache, { obj with fallbackText := trimColons reaction.Name })) ∧
    (∀ resp, env.decodeEnv.httpGet u = .ok resp → resp.StatusCode ≠ 200 →
      ∃ e2, fetchAndDecodeImage env.decodeEnv u = .error e2) := by
  refine ⟨?_, ?_, ?_⟩
  · intro hurl hcond hq
    have hdet : determineUrl env reaction
        = .resolverFailed (trimColons reaction.Name) := by
      simp [determineUrl, hurl, hcond, hq]
    constructor
    · simp [LoadImageForObject, ImageManager.Get, hmiss, hdet]
    · intro hsame
      have hdet2 : determineUrl env2 reaction
          = .resolverFailed (trimColons reaction.Name) := by
        simp [determineUrl, hurl, hcond, hsame, hq]
      simp [LoadImageForObject, ImageManager.Get, hmiss, hdet, hdet2]
  · intro hdet hfetch
    simp [LoadImageForObject, ImageManager.Get, hmiss, hdet, hfetch]
  · intro resp hget hstatus
    refine ⟨"bad status".toList, ?_⟩
    unfold fetchAndDecodeImage
    rw [hget]
    simp [hstatus]

/-- Witness for C5: a concrete resolver failure and a concrete fetch
failure both end as text fallbacks. -/
theorem claim_C5_failure_fallback_witness :
    (LoadImageForObject errLoadEnv
        (fun _ => none) ⟨none, none, []⟩ ⟨[':', 'a', ':'], []⟩
      = (fun _ => none, ⟨none, none, ['a']⟩)) ∧
    (LoadImageForObject okResolverLoadEnv
        (fun _ => none) ⟨none, none, []⟩ ⟨['b'], ['w']⟩
      = (fun _ => none, ⟨none, none, ['b']⟩)) := by
  constructor
  · exact ((claim_C5_failure_fallback errLoadEnv errLoadEnv
      (fun _ => none) ⟨none, none, []⟩ ⟨[':', 'a', ':'], []⟩ [] ['q']
      rfl).1 rfl (by decide) rfl).1
  · exact (claim_C5_failure_fallback okResolverLoadEnv okResolverLoadEnv
      (fun _ => none) ⟨none, none, []⟩ ⟨['b'], ['w']⟩ ['w'] ['x']
      rfl).2.1 rfl rfl

/-! ## Claim C4: URL resolution -/

theorem char_eq_colon_of_toNat (c : Char) (h : c.toNat = 0x3a) : c = ':' := by
  apply Char.ext
  apply UInt32.ext
  exact h

theorem charUtf8Bytes_ne_nil (c : Char) : charUtf8Bytes c ≠ [] := by
  unfold charUtf8Bytes
  split
  · simp
  split
  · simp
  split <;> simp

theorem charUtf8Bytes_length_pos (c : Char) : 0 < (charUtf8Bytes c).length :=
  List.length_pos.mpr (charUtf8Bytes_ne_nil c)

theorem charUtf8Bytes_headD (c : Char) :
    (charUtf8Bytes c).headD 0 = 0x3a ↔ c = ':' := by
  constructor
  · intro h
    by_cases h1 : c.toNat < 0x80
    · simp only [charUtf8Bytes, if_pos h1, List.headD] at h
      exact char_eq_colon_of_toNat c h
    · exfalso
      by_cases h2 : c.toNat < 0x800
      · simp only [charUtf8Bytes, if_neg h1, if_pos h2, List.headD] at h
        omega
      · by_cases h3 : c.toNat < 0x10000
        · simp only [charUtf8Bytes, if_neg h1, if_neg h2, if_pos h3,
            List.headD] at h
          omega
        · simp only [charUtf8Bytes, if_neg h1, if_neg h2, if_neg h3,
            List.headD] at h
          omega
  · rintro rfl
    decide

theorem charUtf8Bytes_getLastD (c : Char) :
    (charUtf8Bytes c).getLastD 0 = 0x3a ↔ c = ':' := by
  constructor
  · intro h
    by_cases h1 : c.toNat < 0x80
    · simp only [charUtf8Bytes, if_pos h1, List.getLastD] at h
      exact char_eq_colon_of_toNat c h
    · exfalso
      by_cases h2 : c.toNat < 0x800
      · simp [charUtf8Bytes, if_neg h1, if_pos h2] at h
        omega
      · by_cases h3 : c.toNat < 0x10000
        · simp [charUtf8Bytes, if_neg h1, if_neg h2, if_pos h3] at h
          omega
        · simp [charUtf8Bytes, if_neg h1, if_neg h2, if_neg h3] at h
          omega
  · rintro rfl
    decide

theorem utf8Bytes_append (s t : GoStr) :
    utf8Bytes (s ++ t) = utf8Bytes s ++ utf8Bytes t := by
  induction s with
  | nil => rfl
  | cons c s ih => simp [utf8Bytes, ih]

theorem goLen_ge_length (s : GoStr) : s.length ≤ goLen s := by
  induction s with
  | nil => simp [goLen, utf8Bytes]
  | cons c t ih =>
    have hpos := charUtf8Bytes_length_pos c
    simp only [goLen, utf8Bytes, List.length_append, List.length_cons] at *
    omega

theorem goByte_zero (c : Char) (t : GoStr) :
    goByte (c :: t) 0 = (charUtf8Bytes c).headD 0 := by
  show (utf8Bytes (c :: t)).getD 0 0 = _
  rw [show utf8Bytes (c :: t) = charUtf8Bytes c ++ utf8Bytes t from rfl]
  rw [List.getD_eq_getElem?_getD, List.getElem?_append_left (charUtf8Bytes_length_pos c),
    List.headD_eq_head?, List.head?_eq_getElem?]

theorem goByte_last (s : GoStr) (c : Char) :
    goByte (s ++ [c]) (goLen (s ++ [c]) - 1) = (charUtf8Bytes c).getLastD 0 := by
  show (utf8Bytes (s ++ [c])).getD ((utf8Bytes (s ++ [c])).length - 1) 0 = _
  rw [List.getD_eq_getElem?_getD, ← List.getLast?_eq_getElem?, utf8Bytes_append]
  have h1 : utf8Bytes [c] = charUtf8Bytes c := by simp [utf8Bytes]
  rw [h1, List.getLast?_append]
  obtain ⟨L, b, hLb⟩ := (List.eq_nil_or_concat (charUtf8Bytes c)).resolve_left
    (charUtf8Bytes_ne_nil c)
  rw [hLb, List.concat_eq_append, List.getLast?_concat]
  simp [Option.or, List.getLastD_eq_getLast?, List.getLast?_concat]

theorem customNameCond_iff (s : GoStr) :
    customNameCond s = true ↔
      (2 < s.length ∧ s.head? = some ':' ∧ s.getLast? = some ':') := by
  simp only [customNameCond, Bool.and_eq_true, decide_eq_true_eq]
  constructor
  · rintro ⟨⟨hlen, hb0⟩, hbl⟩
    have hs : s ≠ [] := by
      rintro rfl
      simp [goLen, utf8Bytes] at hlen
    have hhead : s.head? = some ':' := by
      cases s with
      | nil => exact absurd rfl hs
      | cons c t =>
        rw [goByte_zero] at hb0
        rw [(charUtf8Bytes_headD c).mp hb0]
        rfl
    have hlast : s.getLast? = some ':' := by
      obtain ⟨L, b, hLb⟩ := (List.eq_nil_or_concat s).resolve_left hs
      rw [hLb, List.concat_eq_append] at hbl ⊢
      rw [goByte_last] at hbl
      rw [(charUtf8Bytes_getLastD b).mp hbl]
      exact List.getLast?_concat L
    refine ⟨?_, hhead, hlast⟩
    by_contra hle
    push_neg at hle
    rcases s with _ | ⟨a, _ | ⟨b, _ | ⟨c', t⟩⟩⟩
    · exact hs rfl
    · have ha : a = ':' := by simpa using hhead
      subst ha
      have h1 : goLen [':'] = 1 := by decide
      omega
    · have ha : a = ':' := by simpa using hhead
      have hb : b = ':' := by
        have h2 : ([a, b] : GoStr).getLast? = some b := rfl
        rw [h2] at hlast
        simpa using hlast
      subst ha
      subst hb
      have h2 : goLen [':', ':'] = 2 := by decide
      omega
    · simp only [List.length_cons] at hle
      omega
  · rintro ⟨hlen, hhead, hlast⟩
    have hs : s ≠ [] := by
      rintro rfl
      simp at hhead
    refine ⟨⟨?_, ?_⟩, ?_⟩
    · have := goLen_ge_length s
      omega
    · cases s with
      | nil => exact absurd rfl hs
      | cons c t =>
        have hc : c = ':' := by simpa using hhead
        rw [goByte_zero]
        exact (charUtf8Bytes_headD c).mpr hc
    · obtain ⟨L, b, hLb⟩ := (List.eq_nil_or_concat s).resolve_left hs
      rw [hLb, List.concat_eq_append] at hlast ⊢
      have hb : b = ':' := by simpa [List.getLast?_concat] using hlast
      rw [goByte_last]
      exact (charUtf8Bytes_getLastD b).mpr hb

/-- C4: the URL to fetch is chosen by priority: a non-empty explicit URL is
used directly; otherwise a delimited name (byte length > 2, first and last
byte `':'` — equivalently, more than 2 code points with first and last
code point `':'`) goes through the external custom-symbol resolver with
the delimiters stripped; otherwise the fixed Twemoji CDN template keyed by
the hyphen-joined lowercase-hex code points of the name minus `U+FE0F`. -/
theorem claim_C4_url_priority (env : LoadEnv) (reaction : ReactionInfo)
    (u e : GoStr) :
    (reaction.URL ≠ [] → determineUrl env reaction = .fetchUrl reaction.URL) ∧
    (reaction.URL = [] → customNameCond reaction.Name = true →
      (env.queryEmojiAPI (trimColons reaction.Name) = .ok u →
        determineUrl env reaction = .fetchUrl u) ∧
      (env.queryEmojiAPI (trimColons reaction.Name) = .error e →
        determineUrl env reaction = .resolverFailed (trimColons reaction.Name))) ∧
    (reaction.URL = [] → customNameCond reaction.Name = false →
      determineUrl env reaction = .fetchUrl (emojiToTwemojiURL reaction.Name)) ∧
    (customNameCond reaction.Name = true ↔
      (2 < reaction.Name.length ∧ reaction.Name.head? = some ':' ∧
        reaction.Name.getLast? = some ':')) := by
  refine ⟨?_, ?_, ?_, customNameCond_iff reaction.Name⟩
  · intro h
    simp [determineUrl, h]
  · intro hurl hcond
    constructor
    · intro hq
      simp [determineUrl, hurl, hcond, hq]
    · intro hq
      simp [determineUrl, hurl, hcond, hq]
  · intro hurl hcond
    simp [determineUrl, hurl, hcond]

/-- Witness for C4: the three priority branches at concrete inputs. -/
theorem claim_C4_url_priority_witness :
    (determineUrl okResolverLoadEnv ⟨['b'], ['u']⟩ = .fetchUrl ['u']) ∧
    (determineUrl okResolverLoadEnv ⟨[':', 'a', ':'], []⟩ = .fetchUrl ['u']) ∧
    (determineUrl errLoadEnv ⟨[':', 'a', ':'], []⟩
      = .resolverFailed (trimColons [':', 'a', ':'])) ∧
    (determineUrl errLoadEnv ⟨['b'], []⟩
      = .fetchUrl (emojiToTwemojiURL ['b'])) := by
  refine ⟨?_, ?_, ?_, ?_⟩
  · exact (claim_C4_url_priority okResolverLoadEnv ⟨['b'], ['u']⟩ [] []).1
      (by decide)
  · exact ((claim_C4_url_priority okResolverLoadEnv ⟨[':', 'a', ':'], []⟩
      ['u'] []).2.1 rfl (by decide)).1 rfl
  · exact ((claim_C4_url_priority errLoadEnv ⟨[':', 'a', ':'], []⟩
      [] ['q']).2.1 rfl (by decide)).2 rfl
  · exact (claim_C4_url_priority errLoadEnv ⟨['b'], []⟩ [] []).2.2.1 rfl
      (by decide)

/-! ## Claims C7 and C1 -/

/-- C7: the WebP compositor only repackages the decoder's already
composited frames, in order, and passes the decoder's delays — which are
natively milliseconds — through unchanged. -/
theorem claim_C7_webp_repackage (animation : WEBP)
    (_h : 2 ≤ animation.Image.length) :
    (preRenderWebpAnimation animation).Frames = animation.Image ∧
    (preRenderWebpAnimation animation).FrameDelays = animation.Delay := by
  constructor
  · show animation.Image.map ebitenNewImageFromImage = animation.Image
    have hid : ebitenNewImageFromImage = id := rfl
    rw [hid, List.map_id]
  · rfl

/-- Witness for C7 at a concrete 2-frame animation. -/
theorem claim_C7_webp_repackage_witness :
    (preRenderWebpAnimation ⟨[testCanvas, testCanvas], [40, 50]⟩).Frames
        = [testCanvas, testCanvas] ∧
    (preRenderWebpAnimation ⟨[testCanvas, testCanvas], [40, 50]⟩).FrameDelays
        = [40, 50] :=
  claim_C7_webp_repackage ⟨[testCanvas, testCanvas], [40, 50]⟩ (by decide)

/-- The number of real frames of the fetched source, as the claim counts
them: GIF sub-images, non-default APNG frames (counted on the
tRNS-stripped bytes actually decoded), WebP animation frames; a source
decoded through a static-only path counts as one real frame. -/
def realFramesOfSource (env : DecodeEnv) (url : GoStr) : Nat :=
  match env.httpGet url with
  | .error _ => 0
  | .ok resp =>
    if goContains (env.detectContentType resp.Body) "gif".toList then
      match env.gifDecodeAll resp.Body with
      | .error _ => 0
      | .ok g => g.Image.length
    else if goContains (env.detectContentType resp.Body) "png".toList then
      match env.apngDecodeAll (processedPngData resp.Body) with
      | .error _ => 1
      | .ok animation => animation.Frames.countP (fun f => !f.IsDefault)
    else if goContains (env.detectContentType resp.Body) "webp".toList then
      match env.webpDecodeAll resp.Body with
      | .error _ => 1
      | .ok animation => animation.Image.length
    else 1

/-- C1: whenever `fetchAndDecodeImage` succeeds, exactly one of the
`Static`/`Animated` variants is set, and the `Animated` variant is
produced exactly when the source has at least 2 real frames; with 0 or 1
real frames the result is the `Static` variant (which by construction
holds exactly one frame). -/
theorem claim_C1_static_animated_dichotomy (env : DecodeEnv) (url : GoStr)
    (d : DecodedImage) (h : fetchAndDecodeImage env url = .ok d) :
    (d.Animated.isSome = !d.Static.isSome) ∧
    (d.Animated.isSome = true ↔ 2 ≤ realFramesOfSource env url) := by
  unfold fetchAndDecodeImage at h
  unfold realFramesOfSource
  split at h
  · exact absurd h (by simp)
  · split at h
    · exact absurd h (by simp)
    split at h
    -- GIF path
    next hgif =>
      rw [if_pos hgif]
      split at h
      · exact absurd h (by simp)
      next g hg =>
        split at h
        · next hle =>
          split at h
          · exact absurd h (by simp)
          · injection h with h
            subst h
            exact ⟨by simp, by simp; omega⟩
        · next hgt =>
          injection h with h
          subst h
          exact ⟨by simp, by simp; omega⟩
    next hgif =>
      rw [if_neg hgif]
      split at h
      -- PNG path
      next hpng =>
        rw [if_pos hpng]
        split at h
        · exact absurd h (by simp)
        next config hconfig =>
          split at h
          · -- APNG decode failed: static PNG fallback
            split at h
            · exact absurd h (by simp)
            · injection h with h
              subst h
              simp
          · next animation hanim =>
            split at h
            · next hle =>
              split at h
              · exact absurd h (by simp)
              · injection h with h
                subst h
                exact ⟨by simp, by simp; omega⟩
            · next hgt =>
              injection h with h
              subst h
              exact ⟨by simp, by simp; omega⟩
      next hpng =>
        rw [if_neg hpng]
        split at h
        -- WebP path
        next hwebp =>
          rw [if_pos hwebp]
          split at h
          · -- animated decode failed: static fallback
            split at h
            · exact absurd h (by simp)
            · injection h with h
              subst h
              simp
          · next animation hanim =>
            split at h
            · next hle =>
              split at h
              · exact absurd h (by simp)
              · injection h with h
                subst h
                exact ⟨by simp, by simp; omega⟩
            · next hgt =>
              injection h with h
              subst h
              exact ⟨by simp, by simp; omega⟩
        -- generic static path
        next hwebp =>
          rw [if_neg hwebp]
          split at h
          · exact absurd h (by simp)
          · injection h with h
            subst h
            simp

/-- A decode environment that serves a two-frame GIF. -/
def gifEnv : DecodeEnv :=
  ⟨fun _ => .ok ⟨200, []⟩, fun _ => "image/gif".toList,
    fun _ => .ok ⟨[testCanvas, testCanvas], [3, 4], [2, 0], 1, 1⟩,
    fun _ => .error [], fun _ => .error [], fun _ => .error [],
    fun _ => .error [], fun _ => .error []⟩

/-- Witness for C1: decoding the two-frame GIF produces the `Animated`
variant, and the source indeed has at least 2 real frames. -/
theorem claim_C1_static_animated_dichotomy_witness :
    fetchAndDecodeImage gifEnv [] =
      .ok ⟨none, some (preRenderGifAnimation
        ⟨[testCanvas, testCanvas], [3, 4], [2, 0], 1, 1⟩)⟩ ∧
    2 ≤ realFramesOfSource gifEnv [] := by
  constructor
  · rfl
  · exact (claim_C1_static_animated_dichotomy gifEnv [] _ rfl).2.mp rfl

/-! ## Canvas lemmas for the compositor claims -/

theorem Canvas.ext2 (c d : Canvas) (hb : c.bounds = d.bounds)
    (hp : ∀ x y, c.pix x y = d.pix x y) : c = d := by
  cases c with
  | mk cb cp =>
    cases d with
    | mk db dp =>
      simp only at hb hp
      subst hb
      have : cp = dp := funext fun x => funext fun y => hp x y
      rw [this]

/-- A canvas is well-formed for a `w × h` compositor run: its bounds are
`(0, 0)–(w, h)` and every pixel outside the bounds is transparent. -/
def CanvasOk (w h : Int) (c : Canvas) : Prop :=
  c.bounds = imageRect 0 0 w h ∧
    ∀ x y, c.bounds.mem x y = false → c.pix x y = RGBA.clear

theorem canvasOk_newRGBA (w h : Int) : CanvasOk w h (newRGBA (imageRect 0 0 w h)) :=
  ⟨rfl, fun _ _ _ => rfl⟩

theorem drawImage_bounds (dst : Canvas) (rc : Rect) (src : Canvas)
    (spx spy : Int) (op : DrawOp) :
    (drawImage dst rc src spx spy op).bounds = dst.bounds := rfl

theorem drawImage_pix_outside (dst : Canvas) (rc : Rect) (src : Canvas)
    (spx spy : Int) (op : DrawOp) (x y : Int)
    (h : dst.bounds.mem x y = false) :
    (drawImage dst rc src spx spy op).pix x y = dst.pix x y := by
  simp [drawImage, h]

theorem canvasOk_drawImage (w h : Int) (dst : Canvas) (rc : Rect)
    (src : Canvas) (spx spy : Int) (op : DrawOp) (hd : CanvasOk w h dst) :
    CanvasOk w h (drawImage dst rc src spx spy op) := by
  refine ⟨hd.1, fun x y hxy => ?_⟩
  rw [drawImage_bounds] at hxy
  rw [drawImage_pix_outside dst rc src spx spy op x y hxy]
  exact hd.2 x y hxy

/-- Drawing a well-formed canvas with `draw.Src` over the whole bounds of a
well-formed destination replaces the destination entirely: this is both the
snapshot (`frameCopy`) operation and the restore-to-previous operation. -/
theorem drawImage_src_full (w h : Int) (dst src : Canvas)
    (hd : CanvasOk w h dst) (hs : CanvasOk w h src) :
    drawImage dst dst.bounds src 0 0 .src = src := by
  apply Canvas.ext2
  · rw [drawImage_bounds, hd.1, hs.1]
  · intro x y
    by_cases hmem : (imageRect 0 0 w h).mem x y = true
    · have hsx : (0 : Int) + (x - (imageRect 0 0 w h).x0) = x := by
        simp [imageRect]
      have hsy : (0 : Int) + (y - (imageRect 0 0 w h).y0) = y := by
        simp [imageRect]
      simp only [drawImage, hd.1, hs.1, hsx, hsy, hmem]
      simp [applyOp]
    · have hmem' : (imageRect 0 0 w h).mem x y = false :=
        Bool.not_eq_true _ ▸ (by simpa using hmem)
      rw [drawImage_pix_outside dst dst.bounds src 0 0 .src x y (hd.1 ▸ hmem')]
      rw [hd.2 x y (hd.1 ▸ hmem'), hs.2 x y (hs.1 ▸ hmem')]

/-! ## Claim C2: the APNG compositor -/

/-- The APNG compositor as §4.4 of the specification words it: walk the
non-default frames with a single canvas value; each frame's output is the
composited canvas itself; disposal then yields the canvas for the next
frame — `background` clears the frame's rectangle, `previous` is simply
the canvas value from before the frame was composited, `none` keeps the
composited canvas. -/
def apngRefProcess : List ApngFrame → Canvas → List Canvas × List Int
  | [], _ => ([], [])
  | f :: rest, canvas =>
    if f.IsDefault then apngRefProcess rest canvas
    else
      (apngComposite canvas f ::
          (apngRefProcess rest (match f.DisposeOp with
            | .background =>
              drawImage (apngComposite canvas f) (apngDstRect f) imageTransparent 0 0 .src
            | .previous => canvas
            | .none => apngComposite canvas f)).1,
        apngDelayMs f ::
          (apngRefProcess rest (match f.DisposeOp with
            | .background =>
              drawImage (apngComposite canvas f) (apngDstRect f) imageTransparent 0 0 .src
            | .previous => canvas
            | .none => apngComposite canvas f)).2)

/-- The APNG compositor specification, packaged like the source function. -/
def apngRefRender (animation : APNG) (w h : Int) : AnimatedImage :=
  ⟨(apngRefProcess animation.Frames (newRGBA (imageRect 0 0 w h))).1,
    (apngRefProcess animation.Frames (newRGBA (imageRect 0 0 w h))).2⟩

theorem canvasOk_apngComposite (w h : Int) (canvas : Canvas) (f : ApngFrame)
    (hc : CanvasOk w h canvas) : CanvasOk w h (apngComposite canvas f) :=
  canvasOk_drawImage w h canvas _ _ _ _ _ hc

/-- One `apngStep` keeps both canvases well-formed. -/
theorem apngStep_ok (w h : Int) (st : ApngLoopState) (f : ApngFrame)
    (hc : CanvasOk w h st.canvas) (hp : CanvasOk w h st.prevCanvas) :
    CanvasOk w h (apngStep st f).canvas ∧ CanvasOk w h (apngStep st f).prevCanvas := by
  by_cases hd : f.IsDefault
  · simp only [apngStep, if_pos hd]
    exact ⟨hc, hp⟩
  · simp only [apngStep, if_neg hd]
    constructor
    · cases f.DisposeOp <;>
        simp only <;>
        first
          | exact canvasOk_drawImage w h _ _ _ _ _ _
              (canvasOk_apngComposite w h st.canvas f hc)
          | exact canvasOk_apngComposite w h st.canvas f hc
    · exact canvasOk_drawImage w h _ _ _ _ _ _ hp

/-- The snapshot of a well-formed canvas is the canvas itself. -/
theorem snapshot_eq (w h : Int) (c : Canvas) (hc : CanvasOk w h c) :
    drawImage (newRGBA c.bounds) c.bounds c 0 0 .src = c := by
  have hnb : CanvasOk w h (newRGBA c.bounds) := by
    rw [hc.1]
    exact canvasOk_newRGBA w h
  exact drawImage_src_full w h (newRGBA c.bounds) c hnb hc

/-- The loop of `preRenderApngAnimation` agrees with the specification's
single-canvas recursion, for well-formed canvases. -/
theorem apng_foldl_spec (w h : Int) (fs : List ApngFrame) :
    ∀ (canvas prev : Canvas) (accF : List Canvas) (accD : List Int),
      CanvasOk w h canvas → CanvasOk w h prev →
      (fs.foldl apngStep ⟨canvas, prev, accF, accD⟩).frames
          = accF ++ (apngRefProcess fs canvas).1 ∧
      (fs.foldl apngStep ⟨canvas, prev, accF, accD⟩).frameDelays
          = accD ++ (apngRefProcess fs canvas).2 := by
  induction fs with
  | nil =>
    intro canvas prev accF accD hc hp
    simp [apngRefProcess]
  | cons f rest ih =>
    intro canvas prev accF accD hc hp
    by_cases hd : f.IsDefault
    · simp only [List.foldl_cons, apngStep, if_pos hd, apngRefProcess]
      exact ih canvas prev accF accD hc hp
    · have hcomp : CanvasOk w h (apngComposite canvas f) :=
        canvasOk_apngComposite w h canvas f hc
      have hprevNew : drawImage prev prev.bounds canvas 0 0 .src = canvas :=
        drawImage_src_full w h prev canvas hp hc
      have hsnap :
          drawImage (newRGBA (apngComposite canvas f).bounds)
              (apngComposite canvas f).bounds (apngComposite canvas f) 0 0 .src
            = apngComposite canvas f :=
        snapshot_eq w h (apngComposite canvas f) hcomp
      simp only [List.foldl_cons, apngStep, if_neg hd, hprevNew, hsnap,
        ebitenNewImageFromImage]
      cases hdo : f.DisposeOp with
      | background =>
        have hdisp : CanvasOk w h
            (drawImage (apngComposite canvas f) (apngDstRect f) imageTransparent 0 0 .src) :=
          canvasOk_drawImage w h _ _ _ _ _ _ hcomp
        have := ih _ canvas (accF ++ [apngComposite canvas f])
          (accD ++ [apngDelayMs f]) hdisp hc
        simp only [apngRefProcess, if_neg hd, hdo]
        rw [this.1, this.2]
        simp
      | previous =>
        have hrestore :
            drawImage (apngComposite canvas f) (apngComposite canvas f).bounds
                canvas 0 0 .src = canvas :=
          drawImage_src_full w h (apngComposite canvas f) canvas hcomp hc
        rw [hrestore]
        have := ih canvas canvas (accF ++ [apngComposite canvas f])
          (accD ++ [apngDelayMs f]) hc hc
        simp only [apngRefProcess, if_neg hd, hdo]
        rw [this.1, this.2]
        simp
      | none =>
        have := ih (apngComposite canvas f) canvas
          (accF ++ [apngComposite canvas f]) (accD ++ [apngDelayMs f]) hcomp hc
        simp only [apngRefProcess, if_neg hd, hdo]
        rw [this.1, this.2]
        simp

/-- C2: the APNG compositor skips default frames and, for each remaining
frame in order, composites it at its offset with its blend mode onto the
persistent canvas, snapshots the canvas as that frame's output, and only
then applies disposal (background clears the frame's rectangle, previous
restores the canvas to its state from immediately before the frame was
drawn, none leaves it) — stated as agreement with the specification's
single-canvas recursion `apngRefRender`; and concretely, when frame 2
disposes to previous, the canvas that a third frame would be composited
onto (the fold state after frames 1 and 2) equals the canvas state
immediately after frame 1's disposal. -/
theorem apngStep_previous_canvas (w h : Int) (st : ApngLoopState)
    (f : ApngFrame) (hc : CanvasOk w h st.canvas)
    (hp : CanvasOk w h st.prevCanvas) (hd : f.IsDefault = false)
    (hprev : f.DisposeOp = .previous) :
    (apngStep st f).canvas = st.canvas := by
  have hne : ¬(f.IsDefault = true) := by simp [hd]
  have hprevNew :
      drawImage st.prevCanvas st.prevCanvas.bounds st.canvas 0 0 .src
        = st.canvas :=
    drawImage_src_full w h _ _ hp hc
  have hcomp : CanvasOk w h (apngComposite st.canvas f) :=
    canvasOk_apngComposite w h _ f hc
  simp only [apngStep, if_neg hne, hprev, hprevNew]
  exact drawImage_src_full w h _ _ hcomp hc

theorem claim_C2_apng_compositor (animation : APNG) (w h : Int)
    (f1 f2 : ApngFrame) (_h1 : f1.IsDefault = false) (h2 : f2.IsDefault = false)
    (hprev : f2.DisposeOp = .previous) :
    preRenderApngAnimation animation w h = apngRefRender animation w h ∧
    ([f1, f2].foldl apngStep (apngInit w h)).canvas
      = ([f1].foldl apngStep (apngInit w h)).canvas := by
  constructor
  · have h0 := canvasOk_newRGBA w h
    have hsp := apng_foldl_spec w h animation.Frames
      (newRGBA (imageRect 0 0 w h)) (newRGBA (imageRect 0 0 w h)) [] [] h0 h0
    unfold preRenderApngAnimation apngRefRender
    have hinit : apngInit w h
        = ⟨newRGBA (imageRect 0 0 w h), newRGBA (imageRect 0 0 w h), [], []⟩ :=
      rfl
    rw [hinit]
    simp only [hsp.1, hsp.2, List.nil_append]
  · have h0 := canvasOk_newRGBA w h
    have hs1 := apngStep_ok w h (apngInit w h) f1 h0 h0
    have hfold2 : [f1, f2].foldl apngStep (apngInit w h)
        = apngStep (apngStep (apngInit w h) f1) f2 := rfl
    have hfold1 : [f1].foldl apngStep (apngInit w h)
        = apngStep (apngInit w h) f1 := rfl
    rw [hfold2, hfold1]
    exact apngStep_previous_canvas w h _ f2 hs1.1 hs1.2 h2 hprev

/-- A concrete non-default APNG frame whose disposal is
restore-to-previous. -/
def apngPrevFrame : ApngFrame :=
  ⟨⟨imageRect 0 0 1 1, fun _ _ => ⟨255, 0, 0, 255⟩⟩, 0, 0, .over, .previous,
    false, 1, 10⟩

/-- A concrete non-default APNG frame with no disposal. -/
def apngPlainFrame : ApngFrame :=
  ⟨⟨imageRect 0 0 1 1, fun _ _ => ⟨0, 255, 0, 255⟩⟩, 0, 0, .source, .none,
    false, 1, 10⟩

/-- Witness for C2 at a concrete 2-frame animation whose second frame
disposes to previous. -/
theorem claim_C2_apng_compositor_witness :
    preRenderApngAnimation ⟨[apngPlainFrame, apngPrevFrame]⟩ 1 1
        = apngRefRender ⟨[apngPlainFrame, apngPrevFrame]⟩ 1 1 ∧
    ([apngPlainFrame, apngPrevFrame].foldl apngStep (apngInit 1 1)).canvas
      = ([apngPlainFrame].foldl apngStep (apngInit 1 1)).canvas :=
  claim_C2_apng_compositor ⟨[apngPlainFrame, apngPrevFrame]⟩ 1 1
    apngPlainFrame apngPrevFrame rfl rfl rfl

/-! ## Claim C3: the GIF compositor -/

/-- The GIF compositor as §4.3 of the specification words it: one output
frame per sub-image, in order; each output is the canvas value after
drawing the sub-image with `over` compositing at its offset; after a frame
whose disposal byte is restore-to-background the sub-image's rectangle is
cleared to transparent before the next sub-image is drawn; any other
disposal (including restore-to-previous) gets no special handling. -/
def gifRefProcess : List Canvas → List Nat → Canvas → List Canvas
  | [], _, _ => []
  | srcImg :: rest, disposal, canvas =>
    gifComposite canvas srcImg ::
      gifRefProcess rest disposal.tail
        (if disposal.headD 0 = gifDisposalBackground then
          drawImage (gifComposite canvas srcImg) srcImg.bounds imageTransparent 0 0 .src
        else gifComposite canvas srcImg)

theorem gifLoop_spec (w h : Int) (imgs : List Canvas) :
    ∀ (disposal : List Nat) (canvas : Canvas), CanvasOk w h canvas →
      gifLoop imgs disposal canvas = gifRefProcess imgs disposal canvas := by
  induction imgs with
  | nil => intro d c _; rfl
  | cons srcImg rest ih =>
    intro disposal canvas hc
    have hcomp : CanvasOk w h (gifComposite canvas srcImg) :=
      canvasOk_drawImage w h _ _ _ _ _ _ hc
    have hsnap := snapshot_eq w h _ hcomp
    simp only [gifLoop, gifRefProcess, ebitenNewImageFromImage, hsnap]
    by_cases hdisp : disposal.headD 0 = gifDisposalBackground
    · simp only [if_pos hdisp]
      rw [ih disposal.tail _ (canvasOk_drawImage w h _ _ _ _ _ _ hcomp)]
    · simp only [if_neg hdisp]
      rw [ih disposal.tail _ hcomp]

theorem gifLoop_length (imgs : List Canvas) :
    ∀ (disposal : List Nat) (canvas : Canvas),
      (gifLoop imgs disposal canvas).length = imgs.length := by
  induction imgs with
  | nil => intro d c; rfl
  | cons srcImg rest ih =>
    intro disposal canvas
    simp only [gifLoop, List.length_cons]
    rw [ih]

/-- C3: the GIF compositor outputs exactly one frame per sub-image, in
input order; each output is the accumulated canvas after drawing
sub-images up to that point with `over` compositing (with the rectangle of
any preceding restore-to-background sub-image cleared to transparent, and
no special handling for restore-to-previous) — stated as agreement with
the specification's recursion `gifRefProcess` — and the output delays are
the source delays (1/100 s units) times 10, in milliseconds. -/
theorem claim_C3_gif_compositor (g : GoGIF) (_h2 : 2 ≤ g.Image.length) :
    (preRenderGifAnimation g).Frames
        = gifRefProcess g.Image g.Disposal
            (newRGBA (imageRect 0 0 g.ConfigWidth g.ConfigHeight)) ∧
    (preRenderGifAnimation g).Frames.length = g.Image.length ∧
    (preRenderGifAnimation g).FrameDelays = g.Delay.map (fun d => d * 10) := by
  refine ⟨?_, ?_, rfl⟩
  · exact gifLoop_spec g.ConfigWidth g.ConfigHeight g.Image g.Disposal _
      (canvasOk_newRGBA g.ConfigWidth g.ConfigHeight)
  · exact gifLoop_length g.Image g.Disposal _

/-- A concrete 1×1 opaque sub-image for the GIF witness. -/
def gifTestImage : Canvas := ⟨imageRect 0 0 1 1, fun _ _ => ⟨0, 0, 255, 255⟩⟩

/-- A concrete two-frame GIF whose first sub-image disposes to
background. -/
def gifTwoFrame : GoGIF := ⟨[gifTestImage, gifTestImage], [3, 4], [2, 0], 1, 1⟩

/-- Witness for C3 at the concrete two-frame GIF. -/
theorem claim_C3_gif_compositor_witness :
    (preRenderGifAnimation gifTwoFrame).Frames
        = gifRefProcess gifTwoFrame.Image gifTwoFrame.Disposal
            (newRGBA (imageRect 0 0 gifTwoFrame.ConfigWidth
              gifTwoFrame.ConfigHeight)) ∧
    (preRenderGifAnimation gifTwoFrame).Frames.length
        = gifTwoFrame.Image.length ∧
    (preRenderGifAnimation gifTwoFrame).FrameDelays = [30, 40] := by
  have h := claim_C3_gif_compositor gifTwoFrame (by decide)
  exact ⟨h.1, h.2.1, h.2.2⟩

/-! ## Claim C8: tRNS stripping on well-formed PNG streams -/

/-- A parsed PNG chunk: 4-byte type, data, 4-byte CRC. -/
structure PngChunk where
  ctype : List Nat
  cdata : List Nat
  crc : List Nat

/-- Big-endian 4-byte encoding of a 32-bit length. -/
def be32Bytes (n : Nat) : List Nat :=
  [n / 0x1000000 % 256, n / 0x10000 % 256, n / 0x100 % 256, n % 256]

/-- The wire form of a chunk: length, type, data, CRC. -/
def serializeChunk (c : PngChunk) : List Nat :=
  be32Bytes c.cdata.length ++ (c.ctype ++ (c.cdata ++ c.crc))

/-- The wire form of a chunk sequence. -/
def serializeChunks : List PngChunk → List Nat
  | [] => []
  | c :: rest => serializeChunk c ++ serializeChunks rest

/-- Well-formedness of a parsed chunk: type and CRC are 4 bytes and the
data fits a 32-bit length field. -/
def ChunkWF (c : PngChunk) : Prop :=
  c.ctype.length = 4 ∧ c.crc.length = 4 ∧ c.cdata.length < 2 ^ 32

/-- An IEND chunk may only be the last chunk of the sequence. -/
def NoEarlyIend : List PngChunk → Prop
  | [] => True
  | [_] => True
  | c :: rest => c.ctype ≠ iendType ∧ NoEarlyIend rest

theorem be32_be32Bytes (n : Nat) (h : n < 2 ^ 32) : be32 (be32Bytes n) = n := by
  simp only [be32, be32Bytes, List.foldl]
  omega

theorem serializeChunk_length (c : PngChunk) (hwf : ChunkWF c) :
    (serializeChunk c).length = 12 + c.cdata.length := by
  simp [serializeChunk, be32Bytes, hwf.1, hwf.2.1]
  omega

theorem take4_serialize (c : PngChunk) (tail : List Nat) :
    (serializeChunk c ++ tail).take 4 = be32Bytes c.cdata.length := by
  rw [serializeChunk, List.append_assoc]
  exact List.take_left' rfl

theorem type_serialize (c : PngChunk) (tail : List Nat)
    (h4 : c.ctype.length = 4) :
    ((serializeChunk c ++ tail).drop 4).take 4 = c.ctype := by
  rw [serializeChunk, List.append_assoc,
    List.drop_left' (show (be32Bytes c.cdata.length).length = 4 from rfl),
    List.append_assoc]
  exact List.take_left' h4

theorem drop_serialize (c : PngChunk) (tail : List Nat) (hwf : ChunkWF c) :
    (serializeChunk c ++ tail).drop (8 + c.cdata.length + 4) = tail :=
  List.drop_left' (by rw [serializeChunk_length c hwf]; omega)

theorem take_serialize (c : PngChunk) (tail : List Nat) (hwf : ChunkWF c) :
    (serializeChunk c ++ tail).take (8 + c.cdata.length + 4) = serializeChunk c :=
  List.take_left' (by rw [serializeChunk_length c hwf]; omega)

theorem getD17_serialize (c : PngChunk) (tail : List Nat)
    (h4 : c.ctype.length = 4) (h13 : c.cdata.length = 13) :
    (serializeChunk c ++ tail).getD 17 0 = c.cdata.getD 9 0 := by
  rw [serializeChunk, List.append_assoc]
  rw [List.getD_eq_getElem?_getD,
    List.getElem?_append_right (by simp [be32Bytes] : (be32Bytes c.cdata.length).length ≤ 17)]
  have e1 : 17 - (be32Bytes c.cdata.length).length = 13 := rfl
  rw [e1, List.append_assoc,
    List.getElem?_append_right (by omega : c.ctype.length ≤ 13)]
  rw [h4]
  have e2 : (13 : Nat) - 4 = 9 := rfl
  rw [e2, List.append_assoc,
    List.getElem?_append_left (by rw [h13]; omega)]
  rw [← List.getD_eq_getElem?_getD]

/-- The RGBA flag after the loop has examined one chunk. -/
def newRGBAFlag (c : PngChunk) (isRGBA : Bool) : Bool :=
  if c.ctype = ihdrType ∧ c.cdata.length = 13 ∧ c.cdata.getD 9 0 = 6 then true
  else isRGBA

/-- The bytes the loop emits for one chunk. -/
def writtenBytes (c : PngChunk) (isRGBA : Bool) : List Nat :=
  if c.ctype = ihdrType then serializeChunk c
  else if c.ctype = trnsType ∧ isRGBA then [] else serializeChunk c

/-- One iteration of the chunk loop on a serialized non-IEND chunk. -/
theorem stripLoop_cons (c : PngChunk) (cs : List PngChunk) (isRGBA : Bool)
    (hwf : ChunkWF c) (hnotiend : c.ctype ≠ iendType) :
    stripLoop (serializeChunks (c :: cs)) isRGBA
      = (match stripLoop (serializeChunks cs) (newRGBAFlag c isRGBA) with
         | .error e => .error e
         | .ok out => .ok (writtenBytes c isRGBA ++ out)) := by
  have hser : serializeChunks (c :: cs) = serializeChunk c ++ serializeChunks cs := rfl
  have hlen : (serializeChunk c ++ serializeChunks cs).length
      = 12 + c.cdata.length + (serializeChunks cs).length := by
    rw [List.length_append, serializeChunk_length c hwf]
  have hnonempty : ¬((serializeChunk c ++ serializeChunks cs).isEmpty = true) := by
    rw [List.isEmpty_iff]
    intro h
    have hl := congrArg List.length h
    rw [hlen] at hl
    simp at hl
  have h8 : ¬((serializeChunk c ++ serializeChunks cs).length < 8) := by omega
  rw [hser, stripLoop, if_neg hnonempty, dif_neg h8,
    take4_serialize c (serializeChunks cs), be32_be32Bytes _ hwf.2.2,
    type_serialize c (serializeChunks cs) hwf.1]
  have hsz : ¬((serializeChunk c ++ serializeChunks cs).length
      < 8 + c.cdata.length + 4) := by omega
  rw [dif_neg hsz, take_serialize c (serializeChunks cs) hwf,
    drop_serialize c (serializeChunks cs) hwf, if_neg hnotiend]
  by_cases h2 : c.ctype = ihdrType ∧ c.cdata.length = 13
  · rw [getD17_serialize c (serializeChunks cs) hwf.1 h2.2]
    rfl
  · have hc3 : ¬(c.ctype = ihdrType ∧ c.cdata.length = 13 ∧
        (serializeChunk c ++ serializeChunks cs).getD 17 0 = 6) :=
      fun hcond => h2 ⟨hcond.1, hcond.2.1⟩
    have hc4 : ¬(c.ctype = ihdrType ∧ c.cdata.length = 13 ∧
        c.cdata.getD 9 0 = 6) :=
      fun hcond => h2 ⟨hcond.1, hcond.2.1⟩
    rw [if_neg hc3]
    unfold newRGBAFlag writtenBytes
    rw [if_neg hc4]

/-- One iteration of the chunk loop on a serialized IEND chunk: copy it
and everything after it verbatim and stop. -/
theorem stripLoop_cons_iend (c : PngChunk) (cs : List PngChunk)
    (isRGBA : Bool) (hwf : ChunkWF c) (hiend : c.ctype = iendType) :
    stripLoop (serializeChunks (c :: cs)) isRGBA
      = .ok (serializeChunk c ++ serializeChunks cs) := by
  have hser : serializeChunks (c :: cs) = serializeChunk c ++ serializeChunks cs := rfl
  have hlen : (serializeChunk c ++ serializeChunks cs).length
      = 12 + c.cdata.length + (serializeChunks cs).length := by
    rw [List.length_append, serializeChunk_length c hwf]
  have hnonempty : ¬((serializeChunk c ++ serializeChunks cs).isEmpty = true) := by
    rw [List.isEmpty_iff]
    intro h
    have hl := congrArg List.length h
    rw [hlen] at hl
    simp at hl
  have h8 : ¬((serializeChunk c ++ serializeChunks cs).length < 8) := by omega
  rw [hser, stripLoop, if_neg hnonempty, dif_neg h8,
    take4_serialize c (serializeChunks cs), be32_be32Bytes _ hwf.2.2,
    type_serialize c (serializeChunks cs) hwf.1]
  have hsz : ¬((serializeChunk c ++ serializeChunks cs).length
      < 8 + c.cdata.length + 4) := by omega
  rw [dif_neg hsz, take_serialize c (serializeChunks cs) hwf,
    drop_serialize c (serializeChunks cs) hwf, if_pos hiend]
  have hihdr : ¬(c.ctype = ihdrType) := by
    rw [hiend]
    decide
  have htrns : ¬(c.ctype = trnsType ∧ isRGBA = true) := by
    rintro ⟨h1, _⟩
    rw [hiend] at h1
    exact absurd h1 (by decide)
  rw [if_neg hihdr, if_neg htrns]

theorem newRGBAFlag_true (c : PngChunk) : newRGBAFlag c true = true := by
  unfold newRGBAFlag
  split <;> rfl

theorem NoEarlyIend_tail (c : PngChunk) (cs : List PngChunk)
    (h : NoEarlyIend (c :: cs)) : NoEarlyIend cs := by
  cases cs with
  | nil => trivial
  | cons c2 rest => exact h.2

/-- The chunk loop with the RGBA flag set removes exactly the tRNS chunks
of a well-formed serialized chunk sequence. -/
theorem stripLoop_serialize_true (cs : List PngChunk)
    (hwf : ∀ c ∈ cs, ChunkWF c) (hie : NoEarlyIend cs) :
    stripLoop (serializeChunks cs) true
      = .ok (serializeChunks (cs.filter (fun c => decide (c.ctype ≠ trnsType)))) := by
  induction cs with
  | nil =>
    rw [stripLoop]
    rfl
  | cons c rest ih =>
    have hwfc := hwf c (List.mem_cons_self _ _)
    by_cases hiend : c.ctype = iendType
    · have hrest : rest = [] := by
        cases rest with
        | nil => rfl
        | cons c2 r2 => exact absurd hiend hie.1
      subst hrest
      rw [stripLoop_cons_iend c [] true hwfc hiend]
      have hne : c.ctype ≠ trnsType := by
        rw [hiend]
        decide
      have hfc : List.filter (fun x => decide (x.ctype ≠ trnsType)) [c] = [c] := by
        simp [hne]
      rw [hfc]
      rfl
    · rw [stripLoop_cons c rest true hwfc hiend, newRGBAFlag_true,
        ih (fun x hx => hwf x (List.mem_cons_of_mem _ hx))
          (NoEarlyIend_tail c rest hie)]
      by_cases htrns : c.ctype = trnsType
      · have hfc : List.filter (fun x => decide (x.ctype ≠ trnsType)) (c :: rest)
            = List.filter (fun x => decide (x.ctype ≠ trnsType)) rest := by
          simp [htrns]
        have hwr : writtenBytes c true = [] := by
          unfold writtenBytes
          rw [if_neg (by rw [htrns]; decide), if_pos ⟨htrns, rfl⟩]
        rw [hfc]
        simp [hwr]
      · have hfc : List.filter (fun x => decide (x.ctype ≠ trnsType)) (c :: rest)
            = c :: List.filter (fun x => decide (x.ctype ≠ trnsType)) rest := by
          simp [htrns]
        have hwr : writtenBytes c true = serializeChunk c := by
          unfold writtenBytes
          by_cases hihdr : c.ctype = ihdrType
          · rw [if_pos hihdr]
          · rw [if_neg hihdr, if_neg (fun hc => htrns hc.1)]
        rw [hfc]
        simp [hwr, serializeChunks]

/-- The chunk loop with the RGBA flag clear, on a sequence with no
color-type-6 IHDR chunk, passes every chunk through unchanged. -/
theorem stripLoop_serialize_false (cs : List PngChunk)
    (hwf : ∀ c ∈ cs, ChunkWF c) (hie : NoEarlyIend cs)
    (hno6 : ∀ c ∈ cs,
      ¬(c.ctype = ihdrType ∧ c.cdata.length = 13 ∧ c.cdata.getD 9 0 = 6)) :
    stripLoop (serializeChunks cs) false = .ok (serializeChunks cs) := by
  induction cs with
  | nil =>
    rw [stripLoop]
    rfl
  | cons c rest ih =>
    have hwfc := hwf c (List.mem_cons_self _ _)
    by_cases hiend : c.ctype = iendType
    · have hrest : rest = [] := by
        cases rest with
        | nil => rfl
        | cons c2 r2 => exact absurd hiend hie.1
      subst hrest
      rw [stripLoop_cons_iend c [] false hwfc hiend]
      rfl
    · have hflag : newRGBAFlag c false = false := by
        unfold newRGBAFlag
        rw [if_neg (hno6 c (List.mem_cons_self _ _))]
      have hwr : writtenBytes c false = serializeChunk c := by
        unfold writtenBytes
        by_cases hihdr : c.ctype = ihdrType
        · rw [if_pos hihdr]
        · rw [if_neg hihdr, if_neg (fun hc => Bool.false_ne_true hc.2)]
      rw [stripLoop_cons c rest false hwfc hiend, hflag,
        ih (fun x hx => hwf x (List.mem_cons_of_mem _ hx))
          (NoEarlyIend_tail c rest hie)
          (fun x hx => hno6 x (List.mem_cons_of_mem _ hx))]
      simp [hwr, serializeChunks]

/-- C8: on a well-formed PNG stream whose leading IHDR chunk declares
color type 6, `stripTRNSFromRGBA` removes every tRNS chunk and keeps all
other chunks in order; when the color type is not 6 (and no other
color-type-6 IHDR chunk appears), the stream passes through unchanged, so
tRNS chunks are kept. -/
theorem claim_C8_trns_stripping (c0 : PngChunk) (cs : List PngChunk)
    (hwf : ∀ c ∈ (c0 :: cs), ChunkWF c) (hie : NoEarlyIend (c0 :: cs))
    (hihdr : c0.ctype = ihdrType) (h13 : c0.cdata.length = 13) :
    (c0.cdata.getD 9 0 = 6 →
      stripTRNSFromRGBA (pngSignature ++ serializeChunks (c0 :: cs))
        = .ok (pngSignature ++ serializeChunks
            ((c0 :: cs).filter (fun c => decide (c.ctype ≠ trnsType))))) ∧
    (c0.cdata.getD 9 0 ≠ 6 →
      (∀ c ∈ cs,
        ¬(c.ctype = ihdrType ∧ c.cdata.length = 13 ∧ c.cdata.getD 9 0 = 6)) →
      stripTRNSFromRGBA (pngSignature ++ serializeChunks (c0 :: cs))
        = .ok (pngSignature ++ serializeChunks (c0 :: cs))) := by
  have hwfc := hwf c0 (List.mem_cons_self _ _)
  have hnotiend : c0.ctype ≠ iendType := by
    rw [hihdr]
    decide
  have hcond : ¬((pngSignature ++ serializeChunks (c0 :: cs)).length < 8 ∨
      (pngSignature ++ serializeChunks (c0 :: cs)).take 8 ≠ pngSignature) := by
    push_neg
    constructor
    · rw [List.length_append]
      have : pngSignature.length = 8 := rfl
      omega
    · exact List.take_left' rfl
  have hdrop8 : (pngSignature ++ serializeChunks (c0 :: cs)).drop 8
      = serializeChunks (c0 :: cs) :=
    List.drop_left' rfl
  have hkeep0 : decide (c0.ctype ≠ trnsType) = true := by
    rw [hihdr]
    decide
  have hwr0 : ∀ b, writtenBytes c0 b = serializeChunk c0 := by
    intro b
    unfold writtenBytes
    rw [if_pos hihdr]
  constructor
  · intro h6
    unfold stripTRNSFromRGBA
    rw [if_neg hcond, hdrop8,
      stripLoop_cons c0 cs false hwfc hnotiend]
    have hflag : newRGBAFlag c0 false = true := by
      unfold newRGBAFlag
      rw [if_pos ⟨hihdr, h13, h6⟩]
    rw [hflag, stripLoop_serialize_true cs
      (fun x hx => hwf x (List.mem_cons_of_mem _ hx)) (NoEarlyIend_tail c0 cs hie)]
    have hne0 : c0.ctype ≠ trnsType := by
      rw [hihdr]
      decide
    have hfc0 : List.filter (fun c => decide (c.ctype ≠ trnsType)) (c0 :: cs)
        = c0 :: List.filter (fun c => decide (c.ctype ≠ trnsType)) cs := by
      simp [hne0]
    rw [hfc0]
    simp [hwr0, serializeChunks]
  · intro h6 hno6
    unfold stripTRNSFromRGBA
    rw [if_neg hcond, hdrop8,
      stripLoop_cons c0 cs false hwfc hnotiend]
    have hflag : newRGBAFlag c0 false = false := by
      unfold newRGBAFlag
      rw [if_neg (fun hc => h6 hc.2.2)]
    rw [hflag, stripLoop_serialize_false cs
      (fun x hx => hwf x (List.mem_cons_of_mem _ hx))
      (NoEarlyIend_tail c0 cs hie) hno6]
    simp [hwr0, serializeChunks]

/-- A concrete color-type-6 IHDR chunk (1×1, bit depth 8). -/
def ihdrRGBAChunk : PngChunk :=
  ⟨ihdrType, [0, 0, 0, 1, 0, 0, 0, 1, 8, 6, 0, 0, 0], [0, 0, 0, 0]⟩

/-- A concrete tRNS chunk. -/
def trnsChunk : PngChunk := ⟨trnsType, [7], [0, 0, 0, 0]⟩

/-- A concrete IEND chunk. -/
def iendChunk : PngChunk := ⟨iendType, [], [0, 0, 0, 0]⟩

/-- Witness for C8: a color-type-6 stream with a tRNS chunk loses exactly
that chunk. -/
theorem claim_C8_trns_stripping_witness :
    stripTRNSFromRGBA
        (pngSignature ++ serializeChunks [ihdrRGBAChunk, trnsChunk, iendChunk])
      = .ok (pngSignature ++ serializeChunks
          ([ihdrRGBAChunk, trnsChunk, iendChunk].filter
            (fun c => decide (c.ctype ≠ trnsType)))) :=
  (claim_C8_trns_stripping ihdrRGBAChunk [trnsChunk, iendChunk]
    (by intro c hc; fin_cases hc <;> exact ⟨by decide, by decide, by decide⟩)
    ⟨by decide, by decide, trivial⟩ rfl rfl).1 rfl

end EbitenSandbox
